import Mathlib

/-!
Shallow embedding of the tscale-challenge dispatcher and collector.

The Go program (Controller / Collector / Worker in the repository's main
package) routes CSV query records to workers keyed by hostname, with a lazy
spawn policy bounded by `numWorkers`, and aggregates per-query latencies
into count / sum / min / max / median / average statistics.

Modelling conventions:
* `time.Duration` values (int64 nanoseconds) are modelled as `Int`; Go's
  truncating integer division is `Int.tdiv`.
* Go slice indexing, which panics when out of range, is modelled by
  `goIndex`, returning `none` exactly when Go would panic.
* The Go map `workerMap` is modelled as an association list with
  first-match lookup; workers are identified by their spawn index, and the
  roster slice `workers` is the list of those indices in spawn order.
* Goroutine plumbing (channels, shutdown signalling) is not part of the
  routing/aggregation logic and is elided: dispatch is a fold over the
  record list, and the collector is a fold of `AddWorkSample` over the
  samples it receives.
-/

/-- Mirror of the Go struct `QueryParam` (fields `Host`, `Start`, `End`). -/
structure QueryParam where
  Host : String
  Start : String
  End : String
deriving DecidableEq

/-- Mirror of the Go struct `WorkSample` with its single field `OpTime`
(a `time.Duration`, i.e. int64 nanoseconds, modelled as `Int`). -/
structure WorkSample where
  OpTime : Int
deriving DecidableEq

/-- The routing-relevant state of the Go `Controller` struct:
`workerMap` (host to worker binding), `workers` (roster in spawn order,
each worker represented by its spawn index), the worker cap `numWorkers`
(a uint64 flag value), and the load-balance cursor `lbIndex`. -/
structure Controller where
  workerMap : List (String × Nat)
  workers : List Nat
  numWorkers : Nat
  lbIndex : Nat
deriving DecidableEq

/-- Go map lookup `c.workerMap[qp.Host]`: association-list lookup by key. -/
def lookupHost : List (String × Nat) → String → Option Nat
  | [], _ => none
  | (h, w) :: rest, host => if h = host then some w else lookupHost rest host

/-- Mirror of `NewController`: empty roster, empty map, cursor 0. -/
def NewController (numWorkers : Nat) : Controller :=
  { workerMap := [], workers := [], numWorkers := numWorkers, lbIndex := 0 }

/-- Mirror of `Controller.roundRobinSelect`.  The Go method reads
`c.workers[0]` or `c.workers[c.lbIndex]`; a `none` result models the
index-out-of-range panic Go would raise there. -/
def roundRobinSelect (c : Controller) : Option (Nat × Controller) :=
  if c.workers.length = c.lbIndex + 1 then
    -- We've LB'd to the end of the slice, so set back to elem 0.
    match c.workers.get? 0 with
    | some w => some (w, { c with lbIndex := 0 })
    | none => none
  else
    match c.workers.get? c.lbIndex with
    | some w => some (w, { c with lbIndex := c.lbIndex + 1 })
    | none => none

/-- One iteration of the dispatch loop in `Controller.Run`: route one
record, returning the new controller state and the worker the record was
sent to (`none` models the panic path inside `roundRobinSelect`). -/
def dispatchStep (c : Controller) (qp : QueryParam) : Controller × Option Nat :=
  match lookupHost c.workerMap qp.Host with
  | some w => (c, some w)
  | none =>
    if 0 < c.numWorkers ∧ c.workers.length = c.numWorkers then
      -- Cap reached: load balance the new host across spawned workers.
      match roundRobinSelect c with
      | some (w, c') => ({ c' with workerMap := (qp.Host, w) :: c'.workerMap }, some w)
      | none => (c, none)
    else
      -- Build the new worker and spawn it; its identity is its spawn index.
      ({ c with
          workerMap := (qp.Host, c.workers.length) :: c.workerMap,
          workers := c.workers ++ [c.workers.length] },
        some c.workers.length)

/-- The dispatch loop of `Controller.Run` over the whole record list. -/
def dispatchRun (c : Controller) : List QueryParam → Controller
  | [] => c
  | qp :: rest => dispatchRun (dispatchStep c qp).1 rest

/-- The dispatch loop, recording for each record its host and the worker
it was routed to. -/
def dispatchTrace (c : Controller) : List QueryParam → List (String × Option Nat)
  | [] => []
  | qp :: rest => (qp.Host, (dispatchStep c qp).2) :: dispatchTrace (dispatchStep c qp).1 rest

/-- Mirror of the Go `DataStore` struct held by the `Collector`. -/
structure DataStore where
  numQueries : Nat
  totalProcessingTime : Int
  minQueryTime : Option Int
  maxQueryTime : Option Int
  allQueryTimes : List Int
deriving DecidableEq

/-- The Go zero value `&DataStore{}` installed by `NewCollector`. -/
def initDataStore : DataStore :=
  { numQueries := 0, totalProcessingTime := 0, minQueryTime := none,
    maxQueryTime := none, allQueryTimes := [] }

/-- Mirror of `Collector.AddWorkSample`. -/
def AddWorkSample (d : DataStore) (sample : WorkSample) : DataStore :=
  { numQueries := d.numQueries + 1
    totalProcessingTime := d.totalProcessingTime + sample.OpTime
    allQueryTimes := d.allQueryTimes ++ [sample.OpTime]
    minQueryTime :=
      match d.minQueryTime with
      | none => some sample.OpTime
      | some m => if sample.OpTime < m then some sample.OpTime else some m
    maxQueryTime :=
      match d.maxQueryTime with
      | none => some sample.OpTime
      | some m => if sample.OpTime > m then some sample.OpTime else some m }

/-- The receive loop of `Collector.Run`: fold `AddWorkSample` over the
samples drained from the channel, starting from the zero-valued store. -/
def collectorRun (samples : List WorkSample) : DataStore :=
  samples.foldl AddWorkSample initDataStore

/-- Go slice indexing `l[i]` on an `int` index: `none` models the
index-out-of-range panic for `i < 0` or `i ≥ len(l)`. -/
def goIndex (l : List Int) (i : Int) : Option Int :=
  if i < 0 then none else l.get? i.toNat

/-- Mirror of `Collector.calcMedianAndAverage`.  `sort.Sort` produces the
nondecreasing reordering of `allQueryTimes` (`DurationSlice.Less` is `<`),
which on the linear order `Int` is the unique sorted permutation, here
computed by `List.insertionSort` with `≤`.  The slice reads
`allQueryTimes[dataLen/2]` and `allQueryTimes[dataLen/2-1]` go through
`goIndex`; the final `if` guard models Go's panic on division by zero. -/
def calcMedianAndAverage (d : DataStore) : Option (Int × Int) :=
  let sorted := d.allQueryTimes.insertionSort (· ≤ ·)
  let dataLen := sorted.length
  let median? : Option Int :=
    if dataLen % 2 = 0 then
      -- Len is even, so take mean of middle items / 2.
      (goIndex sorted (Int.tdiv (dataLen : Int) 2)).bind fun mid0 =>
        (goIndex sorted (Int.tdiv (dataLen : Int) 2 - 1)).map fun mid1 =>
          Int.tdiv (mid0 + mid1) 2
    else
      goIndex sorted (Int.tdiv (dataLen : Int) 2)
  median?.bind fun median =>
    if dataLen = 0 then none
    else some (median, Int.tdiv (sorted.foldl (· + ·) 0) (dataLen : Int))

/-- The round-robin overflow policy as the specification words it:
return `roster[i]`, then set `i ← (i + 1) mod |roster|`.  This is the
comparison point for the dispatcher's actual `roundRobinSelect`. -/
def specRoundRobinSelect (rosterLen i : Nat) : Nat × Nat :=
  (i, (i + 1) % rosterLen)

/-- Concrete record builder for concrete-input theorems. -/
def qpMk (h : String) : QueryParam :=
  { Host := h, Start := "s", End := "e" }

/-- The cursor invariant maintained by the dispatch loop: the load-balance
cursor is 0 or points inside the roster. -/
def CursorInv (c : Controller) : Prop :=
  c.lbIndex = 0 ∨ c.lbIndex < c.workers.length

lemma lookupHost_eq_none_iff (m : List (String × Nat)) (h : String) :
    lookupHost m h = none ↔ h ∉ m.map Prod.fst := by
  induction m with
  | nil => simp [lookupHost]
  | cons p rest ih =>
    obtain ⟨k, w⟩ := p
    by_cases hk : k = h
    · subst hk
      simp [lookupHost]
    · simp [lookupHost, hk, ih, Ne.symm hk]

lemma roundRobinSelect_spec {c : Controller} {w : Nat} {c' : Controller}
    (h : roundRobinSelect c = some (w, c')) :
    c'.workerMap = c.workerMap ∧ c'.workers = c.workers ∧
      c'.numWorkers = c.numWorkers ∧ CursorInv c' := by
  by_cases hlen : c.workers.length = c.lbIndex + 1
  · rw [roundRobinSelect, if_pos hlen] at h
    cases hg : c.workers.get? 0 with
    | none => rw [hg] at h; simp at h
    | some w0 =>
      rw [hg] at h
      simp only [Option.some.injEq, Prod.mk.injEq] at h
      obtain ⟨hw, hc⟩ := h
      subst hc
      exact ⟨rfl, rfl, rfl, Or.inl rfl⟩
  · rw [roundRobinSelect, if_neg hlen] at h
    cases hg : c.workers.get? c.lbIndex with
    | none => rw [hg] at h; simp at h
    | some w0 =>
      rw [hg] at h
      simp only [Option.some.injEq, Prod.mk.injEq] at h
      obtain ⟨hw, hc⟩ := h
      subst hc
      have hlt : c.lbIndex < c.workers.length := by
        rcases List.get?_eq_some.mp hg with ⟨hl, _⟩
        exact hl
      exact ⟨rfl, rfl, rfl, Or.inr (by simp only []; omega)⟩

lemma roundRobinSelect_isSome {c : Controller} (h : c.lbIndex < c.workers.length) :
    (roundRobinSelect c).isSome := by
  unfold roundRobinSelect
  by_cases hlen : c.workers.length = c.lbIndex + 1
  · rw [if_pos hlen, List.get?_eq_get (show 0 < c.workers.length by omega)]
    simp
  · rw [if_neg hlen, List.get?_eq_get h]
    simp

lemma dispatchStep_numWorkers (c : Controller) (qp : QueryParam) :
    (dispatchStep c qp).1.numWorkers = c.numWorkers := by
  unfold dispatchStep
  cases hq : lookupHost c.workerMap qp.Host with
  | some w => rfl
  | none =>
    by_cases hg : 0 < c.numWorkers ∧ c.workers.length = c.numWorkers
    · rw [if_pos hg]
      cases hs : roundRobinSelect c with
      | none => rfl
      | some p =>
        obtain ⟨w, c'⟩ := p
        exact (roundRobinSelect_spec hs).2.2.1
    · rw [if_neg hg]

lemma dispatchStep_inv {c : Controller} (hc : CursorInv c) (qp : QueryParam) :
    CursorInv (dispatchStep c qp).1 := by
  unfold dispatchStep
  cases hq : lookupHost c.workerMap qp.Host with
  | some w => exact hc
  | none =>
    by_cases hg : 0 < c.numWorkers ∧ c.workers.length = c.numWorkers
    · rw [if_pos hg]
      cases hs : roundRobinSelect c with
      | none => exact hc
      | some p =>
        obtain ⟨w, c'⟩ := p
        obtain ⟨-, hw, -, hinv⟩ := roundRobinSelect_spec hs
        rcases hinv with h0 | hlt
        · exact Or.inl h0
        · exact Or.inr hlt
    · rw [if_neg hg]
      rcases hc with h0 | hlt
      · exact Or.inl h0
      · refine Or.inr ?_
        simp only [List.length_append, List.length_cons, List.length_nil]
        omega

lemma dispatchStep_preserves_binding {c : Controller} {h : String} {w : Nat}
    (hb : lookupHost c.workerMap h = some w) (qp : QueryParam) :
    lookupHost (dispatchStep c qp).1.workerMap h = some w := by
  unfold dispatchStep
  cases hq : lookupHost c.workerMap qp.Host with
  | some w' => exact hb
  | none =>
    have hne : qp.Host ≠ h := by
      intro he
      rw [he, hb] at hq
      exact Option.noConfusion hq
    by_cases hg : 0 < c.numWorkers ∧ c.workers.length = c.numWorkers
    · rw [if_pos hg]
      cases hs : roundRobinSelect c with
      | none => exact hb
      | some p =>
        obtain ⟨w', c'⟩ := p
        obtain ⟨hm, -, -, -⟩ := roundRobinSelect_spec hs
        simp only [lookupHost, hm, if_neg hne]
        exact hb
    · rw [if_neg hg]
      simp only [lookupHost, if_neg hne]
      exact hb

lemma dispatchStep_binds_host (c : Controller) (qp : QueryParam) :
    (dispatchStep c qp).2 = lookupHost (dispatchStep c qp).1.workerMap qp.Host := by
  unfold dispatchStep
  cases hq : lookupHost c.workerMap qp.Host with
  | some w => exact hq.symm
  | none =>
    by_cases hg : 0 < c.numWorkers ∧ c.workers.length = c.numWorkers
    · rw [if_pos hg]
      cases hs : roundRobinSelect c with
      | none => exact hq.symm
      | some p =>
        obtain ⟨w, c'⟩ := p
        simp [lookupHost]
    · rw [if_neg hg]
      simp [lookupHost]

lemma dispatchStep_isSome {c : Controller} (hc : CursorInv c) (qp : QueryParam) :
    ((dispatchStep c qp).2).isSome := by
  unfold dispatchStep
  cases hq : lookupHost c.workerMap qp.Host with
  | some w => rfl
  | none =>
    by_cases hg : 0 < c.numWorkers ∧ c.workers.length = c.numWorkers
    · rw [if_pos hg]
      have hlt : c.lbIndex < c.workers.length := by
        rcases hc with h0 | h0
        · rw [h0, hg.2]
          exact hg.1
        · exact h0
      have hsel := roundRobinSelect_isSome hlt
      cases hs : roundRobinSelect c with
      | none => rw [hs] at hsel; exact absurd hsel (by simp)
      | some p =>
        obtain ⟨w, c'⟩ := p
        rfl
    · rw [if_neg hg]
      rfl

lemma dispatchStep_length_le {c : Controller} {n : Nat}
    (hn : c.numWorkers = n) (hpos : 0 < n) (hle : c.workers.length ≤ n)
    (qp : QueryParam) : (dispatchStep c qp).1.workers.length ≤ n := by
  unfold dispatchStep
  cases hq : lookupHost c.workerMap qp.Host with
  | some w => exact hle
  | none =>
    by_cases hg : 0 < c.numWorkers ∧ c.workers.length = c.numWorkers
    · rw [if_pos hg]
      cases hs : roundRobinSelect c with
      | none => exact hle
      | some p =>
        obtain ⟨w, c'⟩ := p
        obtain ⟨-, hw, -, -⟩ := roundRobinSelect_spec hs
        simp only [hw]
        exact hle
    · rw [if_neg hg]
      simp only [List.length_append, List.length_cons, List.length_nil]
      rw [hn] at hg
      omega

lemma dispatchStep_length_eq_map {c : Controller}
    (hn : c.numWorkers = 0) (hsync : c.workers.length = c.workerMap.length)
    (qp : QueryParam) :
    (dispatchStep c qp).1.workers.length = (dispatchStep c qp).1.workerMap.length := by
  unfold dispatchStep
  cases hq : lookupHost c.workerMap qp.Host with
  | some w => exact hsync
  | none =>
    have hg : ¬(0 < c.numWorkers ∧ c.workers.length = c.numWorkers) := by
      rw [hn]
      simp
    rw [if_neg hg]
    simp only [List.length_append, List.length_cons, List.length_nil]
    omega

lemma dispatchStep_mem_keys {c : Controller} (hc : CursorInv c) (qp : QueryParam)
    (h : String) :
    lookupHost (dispatchStep c qp).1.workerMap h ≠ none ↔
      (lookupHost c.workerMap h ≠ none ∨ h = qp.Host) := by
  unfold dispatchStep
  cases hq : lookupHost c.workerMap qp.Host with
  | some w =>
    constructor
    · exact Or.inl
    · rintro (hm | he)
      · exact hm
      · rw [he, hq]
        simp
  | none =>
    by_cases hg : 0 < c.numWorkers ∧ c.workers.length = c.numWorkers
    · rw [if_pos hg]
      have hlt : c.lbIndex < c.workers.length := by
        rcases hc with h0 | h0
        · rw [h0, hg.2]
          exact hg.1
        · exact h0
      have hsel := roundRobinSelect_isSome hlt
      cases hs : roundRobinSelect c with
      | none => rw [hs] at hsel; exact absurd hsel (by simp)
      | some p =>
        obtain ⟨w, c'⟩ := p
        obtain ⟨hm, -, -, -⟩ := roundRobinSelect_spec hs
        by_cases he : qp.Host = h
        · subst he
          simp [lookupHost, hm]
        · simp [lookupHost, hm, he, Ne.symm he]
    · rw [if_neg hg]
      by_cases he : qp.Host = h
      · subst he
        simp [lookupHost]
      · simp [lookupHost, he, Ne.symm he]

lemma dispatchStep_keys_nodup {c : Controller}
    (hnd : (c.workerMap.map Prod.fst).Nodup) (qp : QueryParam) :
    ((dispatchStep c qp).1.workerMap.map Prod.fst).Nodup := by
  unfold dispatchStep
  cases hq : lookupHost c.workerMap qp.Host with
  | some w => exact hnd
  | none =>
    have hnot : qp.Host ∉ c.workerMap.map Prod.fst :=
      (lookupHost_eq_none_iff _ _).mp hq
    by_cases hg : 0 < c.numWorkers ∧ c.workers.length = c.numWorkers
    · rw [if_pos hg]
      cases hs : roundRobinSelect c with
      | none => exact hnd
      | some p =>
        obtain ⟨w, c'⟩ := p
        obtain ⟨hm, -, -, -⟩ := roundRobinSelect_spec hs
        simp only [List.map_cons, hm]
        exact List.Nodup.cons hnot hnd
    · rw [if_neg hg]
      simp only [List.map_cons]
      exact List.Nodup.cons hnot hnd

lemma dispatchRun_append (c : Controller) (l₁ l₂ : List QueryParam) :
    dispatchRun c (l₁ ++ l₂) = dispatchRun (dispatchRun c l₁) l₂ := by
  induction l₁ generalizing c with
  | nil => rfl
  | cons qp rest ih => simpa [dispatchRun] using ih (dispatchStep c qp).1

lemma dispatchRun_inv {c : Controller} (hc : CursorInv c) (l : List QueryParam) :
    CursorInv (dispatchRun c l) := by
  induction l generalizing c with
  | nil => exact hc
  | cons qp rest ih => exact ih (dispatchStep_inv hc qp)

lemma dispatchRun_numWorkers (c : Controller) (l : List QueryParam) :
    (dispatchRun c l).numWorkers = c.numWorkers := by
  induction l generalizing c with
  | nil => rfl
  | cons qp rest ih =>
    calc (dispatchRun (dispatchStep c qp).1 rest).numWorkers
        = (dispatchStep c qp).1.numWorkers := ih (dispatchStep c qp).1
      _ = c.numWorkers := dispatchStep_numWorkers c qp

lemma dispatchRun_preserves_binding {c : Controller} {h : String} {w : Nat}
    (hb : lookupHost c.workerMap h = some w) (l : List QueryParam) :
    lookupHost (dispatchRun c l).workerMap h = some w := by
  induction l generalizing c with
  | nil => exact hb
  | cons qp rest ih => exact ih (dispatchStep_preserves_binding hb qp)

lemma dispatchTrace_entry {c : Controller} (hc : CursorInv c)
    {l : List QueryParam} {i : Nat} {h : String} {w : Option Nat}
    (ht : (dispatchTrace c l).get? i = some (h, w)) :
    w = lookupHost (dispatchRun c l).workerMap h := by
  induction l generalizing c i with
  | nil => simp [dispatchTrace] at ht
  | cons qp rest ih =>
    cases i with
    | zero =>
      simp only [dispatchTrace, List.get?_cons_zero, Option.some.injEq,
        Prod.mk.injEq] at ht
      obtain ⟨hh, hw⟩ := ht
      subst hh
      subst hw
      have hsome := dispatchStep_isSome hc qp
      cases hs : (dispatchStep c qp).2 with
      | none => rw [hs] at hsome; exact absurd hsome (by simp)
      | some w' =>
        have hb : lookupHost (dispatchStep c qp).1.workerMap qp.Host = some w' := by
          rw [← dispatchStep_binds_host, hs]
        exact (dispatchRun_preserves_binding hb rest).symm
    | succ i =>
      exact ih (dispatchStep_inv hc qp) ht

lemma dispatchRun_length_le {c : Controller} {n : Nat}
    (hn : c.numWorkers = n) (hpos : 0 < n) (hle : c.workers.length ≤ n)
    (l : List QueryParam) : (dispatchRun c l).workers.length ≤ n := by
  induction l generalizing c with
  | nil => exact hle
  | cons qp rest ih =>
    exact ih (by rw [dispatchStep_numWorkers, hn])
      (dispatchStep_length_le hn hpos hle qp)

lemma dispatchRun_sync {c : Controller}
    (hn : c.numWorkers = 0) (hsync : c.workers.length = c.workerMap.length)
    (l : List QueryParam) :
    (dispatchRun c l).workers.length = (dispatchRun c l).workerMap.length := by
  induction l generalizing c with
  | nil => exact hsync
  | cons qp rest ih =>
    exact ih (by rw [dispatchStep_numWorkers, hn])
      (dispatchStep_length_eq_map hn hsync qp)

lemma dispatchRun_mem_keys {c : Controller} (hc : CursorInv c)
    (l : List QueryParam) (h : String) :
    lookupHost (dispatchRun c l).workerMap h ≠ none ↔
      (lookupHost c.workerMap h ≠ none ∨ h ∈ l.map QueryParam.Host) := by
  induction l generalizing c with
  | nil => simp [dispatchRun]
  | cons qp rest ih =>
    rw [dispatchRun, ih (dispatchStep_inv hc qp), dispatchStep_mem_keys hc qp h]
    simp only [List.map_cons, List.mem_cons]
    tauto

lemma dispatchRun_keys_nodup {c : Controller} (hc : CursorInv c)
    (hnd : (c.workerMap.map Prod.fst).Nodup) (l : List QueryParam) :
    ((dispatchRun c l).workerMap.map Prod.fst).Nodup := by
  induction l generalizing c with
  | nil => exact hnd
  | cons qp rest ih =>
    exact ih (dispatchStep_inv hc qp) (dispatchStep_keys_nodup hnd qp)

lemma newController_inv (n : Nat) : CursorInv (NewController n) :=
  Or.inl rfl

/-- C3: for every input record sequence, any two records bearing the same
host are routed to the same worker, and a host's binding, once present in
the routing table after some prefix of the run, is unchanged for the rest
of the run. -/
theorem dispatch_host_affinity (n : Nat) (data : List QueryParam) :
    (∀ i j h wi wj,
      (dispatchTrace (NewController n) data).get? i = some (h, wi) →
      (dispatchTrace (NewController n) data).get? j = some (h, wj) → wi = wj) ∧
    (∀ pre suf h w, data = pre ++ suf →
      lookupHost (dispatchRun (NewController n) pre).workerMap h = some w →
      lookupHost (dispatchRun (NewController n) data).workerMap h = some w) := by
  constructor
  · intro i j h wi wj hi hj
    rw [dispatchTrace_entry (newController_inv n) hi,
      dispatchTrace_entry (newController_inv n) hj]
  · intro pre suf h w hsplit hb
    rw [hsplit, dispatchRun_append]
    exact dispatchRun_preserves_binding hb suf

theorem dispatch_host_affinity_witness :
    (some 0 : Option Nat) = some 0 ∧
      lookupHost (dispatchRun (NewController 0)
        [qpMk "a", qpMk "b", qpMk "a"]).workerMap "a" = some 0 :=
  ⟨(dispatch_host_affinity 0 [qpMk "a", qpMk "b", qpMk "a"]).1
      0 2 "a" (some 0) (some 0) (by decide) (by decide),
    (dispatch_host_affinity 0 [qpMk "a", qpMk "b", qpMk "a"]).2
      [qpMk "a"] [qpMk "b", qpMk "a"] "a" 0 rfl (by decide)⟩

/-- C5: with a positive cap the dispatcher spawns at most `max 1 cap`
workers; with cap `0` it spawns exactly one worker per distinct host of
the input. -/
theorem workers_spawned_bound (n : Nat) (data : List QueryParam) :
    (0 < n → (dispatchRun (NewController n) data).workers.length ≤ max 1 n) ∧
    (n = 0 → (dispatchRun (NewController n) data).workers.length =
      (data.map QueryParam.Host).dedup.length) := by
  constructor
  · intro hpos
    have hle := dispatchRun_length_le (n := n) (c := NewController n) rfl hpos
      (by simp [NewController]) data
    omega
  · intro h0
    subst h0
    have hsync := dispatchRun_sync (c := NewController 0) rfl rfl data
    have hnd := dispatchRun_keys_nodup (newController_inv 0)
      (by simp [NewController]) data
    have hkeys : ((dispatchRun (NewController 0) data).workerMap.map Prod.fst).toFinset
        = (data.map QueryParam.Host).toFinset := by
      ext a
      simp only [List.mem_toFinset]
      have hmem := dispatchRun_mem_keys (newController_inv 0) data a
      constructor
      · intro ha
        have hne : lookupHost (dispatchRun (NewController 0) data).workerMap a ≠ none := by
          intro hnone
          exact (lookupHost_eq_none_iff _ _).mp hnone ha
        rcases hmem.mp hne with hfalse | hok
        · exact absurd rfl hfalse
        · exact hok
      · intro ha
        have hne := hmem.mpr (Or.inr ha)
        by_contra hnot
        exact hne ((lookupHost_eq_none_iff _ _).mpr hnot)
    have hcard := congrArg Finset.card hkeys
    rw [List.card_toFinset, List.card_toFinset,
      List.dedup_eq_self.mpr hnd] at hcard
    rw [hsync, ← List.length_map (dispatchRun (NewController 0) data).workerMap Prod.fst,
      hcard]

theorem workers_spawned_bound_witness :
    (dispatchRun (NewController 2)
        [qpMk "h1", qpMk "h2", qpMk "h3", qpMk "h4"]).workers.length ≤ max 1 2 ∧
    (dispatchRun (NewController 0)
        [qpMk "h1", qpMk "h2", qpMk "h1"]).workers.length =
      (([qpMk "h1", qpMk "h2", qpMk "h1"].map QueryParam.Host)).dedup.length :=
  ⟨(workers_spawned_bound 2 [qpMk "h1", qpMk "h2", qpMk "h3", qpMk "h4"]).1 (by decide),
    (workers_spawned_bound 0 [qpMk "h1", qpMk "h2", qpMk "h1"]).2 rfl⟩

/-- C10: at every state where the dispatcher invokes `roundRobinSelect`
(host unbound, positive cap, roster at the cap), the roster is non-empty,
the load-balance cursor is strictly inside the roster, and both slice
reads inside `roundRobinSelect` succeed (no index out of range). -/
theorem roundRobinSelect_inbounds (n : Nat) (data : List QueryParam)
    (qp : QueryParam) (hn : 0 < n)
    (hmiss : lookupHost (dispatchRun (NewController n) data).workerMap qp.Host = none)
    (hcap : (dispatchRun (NewController n) data).workers.length = n) :
    0 < (dispatchRun (NewController n) data).workers.length ∧
    (dispatchRun (NewController n) data).lbIndex <
      (dispatchRun (NewController n) data).workers.length ∧
    (roundRobinSelect (dispatchRun (NewController n) data)).isSome := by
  have hinv := dispatchRun_inv (newController_inv n) data
  have hlt : (dispatchRun (NewController n) data).lbIndex <
      (dispatchRun (NewController n) data).workers.length := by
    rcases hinv with h0 | h0
    · rw [h0, hcap]
      exact hn
    · exact h0
  exact ⟨by omega, hlt, roundRobinSelect_isSome hlt⟩

theorem roundRobinSelect_inbounds_witness :
    0 < (dispatchRun (NewController 1) [qpMk "h1"]).workers.length ∧
    (dispatchRun (NewController 1) [qpMk "h1"]).lbIndex <
      (dispatchRun (NewController 1) [qpMk "h1"]).workers.length ∧
    (roundRobinSelect (dispatchRun (NewController 1) [qpMk "h1"])).isSome :=
  roundRobinSelect_inbounds 1 [qpMk "h1"] (qpMk "h2") (by decide) (by decide)
    (by decide)

/-- C1 fails on the code: with cap 2 and fresh hosts h1, h2, h3, h4, the
dispatcher binds h4 to worker 0, while the specified round-robin cursor
(return `roster[i]`, then `i ← (i + 1) mod |roster|`, starting at 0) gives
index 1 for the second overflow assignment.  `roundRobinSelect` resets the
cursor as soon as it reaches the last roster slot, so `workers[len-1]`
is never chosen. -/
theorem roundRobin_skips_last_worker :
    dispatchTrace (NewController 2) [qpMk "h1", qpMk "h2", qpMk "h3", qpMk "h4"] =
      [("h1", some 0), ("h2", some 1), ("h3", some 0), ("h4", some 0)] ∧
    (specRoundRobinSelect 2 0).1 = 0 ∧ (specRoundRobinSelect 2 0).2 = 1 ∧
    (specRoundRobinSelect 2 ((specRoundRobinSelect 2 0).2)).1 = 1 ∧
    (some 0 : Option Nat) ≠ some 1 :=
  ⟨by decide, rfl, rfl, rfl, by decide⟩

/-- C8: dispatch and aggregation are deterministic functions of the input
record sequence and the per-record latency assignment: equal inputs give
identical traces, identical final controller states (hence identical
host-to-worker bindings), and identical aggregates. -/
theorem run_deterministic (n : Nat) (data₁ data₂ : List QueryParam)
    (lat₁ lat₂ : QueryParam → Int) (hd : data₁ = data₂) (hl : lat₁ = lat₂) :
    dispatchTrace (NewController n) data₁ = dispatchTrace (NewController n) data₂ ∧
    dispatchRun (NewController n) data₁ = dispatchRun (NewController n) data₂ ∧
    collectorRun (data₁.map fun qp => ⟨lat₁ qp⟩) =
      collectorRun (data₂.map fun qp => ⟨lat₂ qp⟩) ∧
    calcMedianAndAverage (collectorRun (data₁.map fun qp => ⟨lat₁ qp⟩)) =
      calcMedianAndAverage (collectorRun (data₂.map fun qp => ⟨lat₂ qp⟩)) := by
  subst hd
  subst hl
  exact ⟨rfl, rfl, rfl, rfl⟩

theorem run_deterministic_witness :
    dispatchTrace (NewController 2) [qpMk "h1", qpMk "h2", qpMk "h3"] =
      dispatchTrace (NewController 2) [qpMk "h1", qpMk "h2", qpMk "h3"] ∧
    dispatchRun (NewController 2) [qpMk "h1", qpMk "h2", qpMk "h3"] =
      dispatchRun (NewController 2) [qpMk "h1", qpMk "h2", qpMk "h3"] ∧
    collectorRun ([qpMk "h1", qpMk "h2", qpMk "h3"].map fun _ => ⟨7⟩) =
      collectorRun ([qpMk "h1", qpMk "h2", qpMk "h3"].map fun _ => ⟨7⟩) ∧
    calcMedianAndAverage (collectorRun ([qpMk "h1", qpMk "h2", qpMk "h3"].map fun _ => ⟨7⟩)) =
      calcMedianAndAverage (collectorRun ([qpMk "h1", qpMk "h2", qpMk "h3"].map fun _ => ⟨7⟩)) :=
  run_deterministic 2 [qpMk "h1", qpMk "h2", qpMk "h3"]
    [qpMk "h1", qpMk "h2", qpMk "h3"] (fun _ => 7) (fun _ => 7) rfl rfl

/-- The aggregator-state invariant maintained while the collector is
receiving samples. -/
def StoreInv (d : DataStore) : Prop :=
  d.numQueries = d.allQueryTimes.length ∧
  d.totalProcessingTime = d.allQueryTimes.sum ∧
  (d.minQueryTime = none ↔ d.allQueryTimes = []) ∧
  (d.maxQueryTime = none ↔ d.allQueryTimes = []) ∧
  (∀ m, d.minQueryTime = some m →
    m ∈ d.allQueryTimes ∧ ∀ x ∈ d.allQueryTimes, m ≤ x) ∧
  (∀ m, d.maxQueryTime = some m →
    m ∈ d.allQueryTimes ∧ ∀ x ∈ d.allQueryTimes, x ≤ m)

lemma storeInv_init : StoreInv initDataStore := by
  refine ⟨rfl, rfl, by simp [initDataStore], by simp [initDataStore], ?_, ?_⟩ <;>
    intro m hm <;> exact Option.noConfusion hm

lemma addWorkSample_min_none {d : DataStore} {s : WorkSample}
    (hd : d.minQueryTime = none) :
    (AddWorkSample d s).minQueryTime = some s.OpTime := by
  simp [AddWorkSample, hd]

lemma addWorkSample_min_some {d : DataStore} {s : WorkSample} {m : Int}
    (hd : d.minQueryTime = some m) :
    (AddWorkSample d s).minQueryTime =
      if s.OpTime < m then some s.OpTime else some m := by
  simp [AddWorkSample, hd]

lemma addWorkSample_max_none {d : DataStore} {s : WorkSample}
    (hd : d.maxQueryTime = none) :
    (AddWorkSample d s).maxQueryTime = some s.OpTime := by
  simp [AddWorkSample, hd]

lemma addWorkSample_max_some {d : DataStore} {s : WorkSample} {m : Int}
    (hd : d.maxQueryTime = some m) :
    (AddWorkSample d s).maxQueryTime =
      if s.OpTime > m then some s.OpTime else some m := by
  simp [AddWorkSample, hd]

lemma addWorkSample_inv {d : DataStore} (h : StoreInv d) (s : WorkSample) :
    StoreInv (AddWorkSample d s) := by
  obtain ⟨hcount, hsum, hminn, hmaxn, hmin, hmax⟩ := h
  have hmins : ∃ m, (AddWorkSample d s).minQueryTime = some m := by
    cases hd : d.minQueryTime with
    | none => exact ⟨_, addWorkSample_min_none hd⟩
    | some m0 =>
      rw [addWorkSample_min_some hd]
      by_cases hlt : s.OpTime < m0
      · exact ⟨_, if_pos hlt⟩
      · exact ⟨_, if_neg hlt⟩
  have hmaxs : ∃ m, (AddWorkSample d s).maxQueryTime = some m := by
    cases hd : d.maxQueryTime with
    | none => exact ⟨_, addWorkSample_max_none hd⟩
    | some m0 =>
      rw [addWorkSample_max_some hd]
      by_cases hlt : s.OpTime > m0
      · exact ⟨_, if_pos hlt⟩
      · exact ⟨_, if_neg hlt⟩
  refine ⟨?_, ?_, ?_, ?_, ?_, ?_⟩
  · simp [AddWorkSample, hcount]
  · simp [AddWorkSample, hsum]
  · constructor
    · intro hnone
      obtain ⟨m, hm⟩ := hmins
      rw [hm] at hnone
      exact Option.noConfusion hnone
    · intro hnil
      exact absurd hnil (by simp [AddWorkSample])
  · constructor
    · intro hnone
      obtain ⟨m, hm⟩ := hmaxs
      rw [hm] at hnone
      exact Option.noConfusion hnone
    · intro hnil
      exact absurd hnil (by simp [AddWorkSample])
  · intro m hm
    have hall : (AddWorkSample d s).allQueryTimes = d.allQueryTimes ++ [s.OpTime] := rfl
    rw [hall]
    cases hd : d.minQueryTime with
    | none =>
      rw [addWorkSample_min_none hd] at hm
      have hnil : d.allQueryTimes = [] := hminn.mp hd
      injection hm with hm
      subst hm
      simp [hnil]
    | some m0 =>
      rw [addWorkSample_min_some hd] at hm
      obtain ⟨hmem0, hbound0⟩ := hmin m0 hd
      by_cases hlt : s.OpTime < m0
      · rw [if_pos hlt] at hm
        injection hm with hm
        subst hm
        refine ⟨by simp, ?_⟩
        intro x hx
        rcases List.mem_append.mp hx with hx | hx
        · exact le_trans (le_of_lt hlt) (hbound0 x hx)
        · simp only [List.mem_singleton] at hx
          omega
      · rw [if_neg hlt] at hm
        injection hm with hm
        subst hm
        refine ⟨List.mem_append_left _ hmem0, ?_⟩
        intro x hx
        rcases List.mem_append.mp hx with hx | hx
        · exact hbound0 x hx
        · simp only [List.mem_singleton] at hx
          omega
  · intro m hm
    have hall : (AddWorkSample d s).allQueryTimes = d.allQueryTimes ++ [s.OpTime] := rfl
    rw [hall]
    cases hd : d.maxQueryTime with
    | none =>
      rw [addWorkSample_max_none hd] at hm
      have hnil : d.allQueryTimes = [] := hmaxn.mp hd
      injection hm with hm
      subst hm
      simp [hnil]
    | some m0 =>
      rw [addWorkSample_max_some hd] at hm
      obtain ⟨hmem0, hbound0⟩ := hmax m0 hd
      by_cases hlt : s.OpTime > m0
      · rw [if_pos hlt] at hm
        injection hm with hm
        subst hm
        refine ⟨by simp, ?_⟩
        intro x hx
        rcases List.mem_append.mp hx with hx | hx
        · exact le_trans (hbound0 x hx) (le_of_lt hlt)
        · simp only [List.mem_singleton] at hx
          omega
      · rw [if_neg hlt] at hm
        injection hm with hm
        subst hm
        refine ⟨List.mem_append_left _ hmem0, ?_⟩
        intro x hx
        rcases List.mem_append.mp hx with hx | hx
        · exact hbound0 x hx
        · simp only [List.mem_singleton] at hx
          omega

lemma collectorFold_inv {d : DataStore} (h : StoreInv d) (l : List WorkSample) :
    StoreInv (l.foldl AddWorkSample d) := by
  induction l generalizing d with
  | nil => exact h
  | cons s rest ih => exact ih (addWorkSample_inv h s)

lemma collectorRun_inv (l : List WorkSample) : StoreInv (collectorRun l) :=
  collectorFold_inv storeInv_init l

lemma collectorFold_allQueryTimes (d : DataStore) (l : List WorkSample) :
    (l.foldl AddWorkSample d).allQueryTimes =
      d.allQueryTimes ++ l.map WorkSample.OpTime := by
  induction l generalizing d with
  | nil => simp
  | cons s rest ih =>
    rw [List.foldl_cons, ih]
    simp [AddWorkSample]

lemma collectorRun_allQueryTimes (l : List WorkSample) :
    (collectorRun l).allQueryTimes = l.map WorkSample.OpTime := by
  rw [collectorRun, collectorFold_allQueryTimes]
  rfl

lemma foldl_add_eq_sum (l : List Int) (a : Int) :
    l.foldl (· + ·) a = a + l.sum := by
  induction l generalizing a with
  | nil => simp
  | cons x rest ih =>
    rw [List.foldl_cons, ih, List.sum_cons]
    ring

/-- C6: after any sequence of `AddWorkSample` calls on a fresh aggregator,
the count equals the length of the retained vector, the retained vector is
exactly the received samples in order, the running total equals their sum,
min and max are set iff the count is positive, and a set min (resp. max)
is a received sample that bounds every received sample from below (resp.
above). -/
theorem collector_invariants (samples : List WorkSample) :
    (collectorRun samples).numQueries = (collectorRun samples).allQueryTimes.length ∧
    (collectorRun samples).allQueryTimes = samples.map WorkSample.OpTime ∧
    (collectorRun samples).totalProcessingTime = (samples.map WorkSample.OpTime).sum ∧
    ((collectorRun samples).minQueryTime.isSome ↔ 0 < (collectorRun samples).numQueries) ∧
    ((collectorRun samples).maxQueryTime.isSome ↔ 0 < (collectorRun samples).numQueries) ∧
    (∀ m, (collectorRun samples).minQueryTime = some m →
      m ∈ samples.map WorkSample.OpTime ∧ ∀ x ∈ samples.map WorkSample.OpTime, m ≤ x) ∧
    (∀ m, (collectorRun samples).maxQueryTime = some m →
      m ∈ samples.map WorkSample.OpTime ∧ ∀ x ∈ samples.map WorkSample.OpTime, x ≤ m) := by
  obtain ⟨hcount, hsum, hminn, hmaxn, hmin, hmax⟩ := collectorRun_inv samples
  have hall := collectorRun_allQueryTimes samples
  refine ⟨hcount, hall, by rw [hsum, hall], ?_, ?_, ?_, ?_⟩
  · rw [Option.isSome_iff_ne_none, hcount, List.length_pos]
    constructor
    · intro hne
      by_contra hnil
      exact hne (hminn.mpr hnil)
    · intro hne hnone
      exact hne (hminn.mp hnone)
  · rw [Option.isSome_iff_ne_none, hcount, List.length_pos]
    constructor
    · intro hne
      by_contra hnil
      exact hne (hmaxn.mpr hnil)
    · intro hne hnone
      exact hne (hmaxn.mp hnone)
  · intro m hm
    rw [← hall]
    exact hmin m hm
  · intro m hm
    rw [← hall]
    exact hmax m hm

theorem collector_invariants_witness :
    (1 : Int) ∈ [⟨5⟩, ⟨1⟩, ⟨3⟩].map WorkSample.OpTime :=
  ((collector_invariants [⟨5⟩, ⟨1⟩, ⟨3⟩]).2.2.2.2.2.1 1 (by decide)).1

/-- C9: the online running total maintained by `AddWorkSample` equals the
sum recomputed by `calcMedianAndAverage` when it folds addition over the
sorted retained vector, so the reported total and the average's numerator
agree. -/
theorem online_total_matches_batch (samples : List WorkSample) :
    (collectorRun samples).totalProcessingTime =
      ((collectorRun samples).allQueryTimes.insertionSort (· ≤ ·)).foldl (· + ·) 0 := by
  obtain ⟨-, hsum, -, -, -, -⟩ := collectorRun_inv samples
  rw [hsum, foldl_add_eq_sum, zero_add,
    List.Perm.sum_eq (List.perm_insertionSort (· ≤ ·) (collectorRun samples).allQueryTimes)]

lemma tdiv_le_tdiv_right {a b : Int} (h : a ≤ b) {c : Int} (hc : 0 < c) :
    Int.tdiv a c ≤ Int.tdiv b c := by
  rcases le_total 0 a with ha | ha
  · rw [Int.tdiv_eq_ediv ha hc.le, Int.tdiv_eq_ediv (le_trans ha h) hc.le]
    exact Int.ediv_le_ediv hc h
  · rcases le_total 0 b with hb | hb
    · have h2 : 0 ≤ Int.tdiv (-a) c := Int.tdiv_nonneg (by omega) hc.le
      rw [Int.neg_tdiv] at h2
      have h3 : 0 ≤ Int.tdiv b c := Int.tdiv_nonneg hb hc.le
      omega
    · have h4 : Int.tdiv (-b) c ≤ Int.tdiv (-a) c := by
        rw [Int.tdiv_eq_ediv (by omega) hc.le, Int.tdiv_eq_ediv (by omega) hc.le]
        exact Int.ediv_le_ediv hc (by omega)
      rw [Int.neg_tdiv, Int.neg_tdiv] at h4
      omega

lemma add_self_tdiv_two (a : Int) : Int.tdiv (a + a) 2 = a := by
  rw [show a + a = a * 2 by ring]
  exact Int.mul_tdiv_cancel a (by decide)

lemma goIndex_ofNat (l : List Int) (k : Nat) (hk : k < l.length) :
    goIndex l (k : Int) = some (l.get ⟨k, hk⟩) := by
  unfold goIndex
  rw [if_neg (by omega), Int.toNat_ofNat, List.get?_eq_get hk]

lemma calc_nonempty_eq (d : DataStore) (hne : d.allQueryTimes ≠ []) :
    calcMedianAndAverage d = some
      ((if d.allQueryTimes.length % 2 = 0 then
          Int.tdiv
            ((d.allQueryTimes.insertionSort (· ≤ ·)).getD (d.allQueryTimes.length / 2) 0 +
              (d.allQueryTimes.insertionSort (· ≤ ·)).getD (d.allQueryTimes.length / 2 - 1) 0) 2
        else
          (d.allQueryTimes.insertionSort (· ≤ ·)).getD (d.allQueryTimes.length / 2) 0),
        Int.tdiv d.allQueryTimes.sum (d.allQueryTimes.length : Int)) := by
  have hperm := List.perm_insertionSort (· ≤ ·) d.allQueryTimes
  have hlen : (d.allQueryTimes.insertionSort (· ≤ ·)).length = d.allQueryTimes.length :=
    hperm.length_eq
  have hpos : 0 < d.allQueryTimes.length := List.length_pos.mpr hne
  have hsum : (d.allQueryTimes.insertionSort (· ≤ ·)).foldl (· + ·) 0 =
      d.allQueryTimes.sum := by
    rw [foldl_add_eq_sum, zero_add, hperm.sum_eq]
  simp only [calcMedianAndAverage, hlen, hsum]
  have hi0 : Int.tdiv ((d.allQueryTimes.length : Int)) 2 =
      ((d.allQueryTimes.length / 2 : Nat) : Int) := by
    rw [Int.tdiv_eq_ediv (by omega) (by decide)]
    omega
  have hk0 : d.allQueryTimes.length / 2 < (d.allQueryTimes.insertionSort (· ≤ ·)).length := by
    omega
  by_cases hpar : d.allQueryTimes.length % 2 = 0
  · have h2 : 2 ≤ d.allQueryTimes.length := by omega
    have hi1 : ((d.allQueryTimes.length / 2 : Nat) : Int) - 1 =
        ((d.allQueryTimes.length / 2 - 1 : Nat) : Int) := by
      omega
    have hk1 : d.allQueryTimes.length / 2 - 1 <
        (d.allQueryTimes.insertionSort (· ≤ ·)).length := by
      omega
    rw [if_pos hpar, if_pos hpar, hi0, hi1, goIndex_ofNat _ _ hk0, goIndex_ofNat _ _ hk1]
    simp only [Option.some_bind, Option.map_some']
    rw [if_neg (by omega : ¬ d.allQueryTimes.length = 0)]
    rw [List.getD_eq_get?, List.getD_eq_get?, List.get?_eq_get hk0, List.get?_eq_get hk1]
    rfl
  · rw [if_neg hpar, if_neg hpar, hi0, goIndex_ofNat _ _ hk0]
    simp only [Option.some_bind]
    rw [if_neg (by omega : ¬ d.allQueryTimes.length = 0)]
    rw [List.getD_eq_get?, List.get?_eq_get hk0]
    rfl

/-- C4: for every non-empty retained sample vector, finalization sorts it
ascending and returns exactly the claimed median (middle element for odd
count, truncating mean of the two middle elements for even count) and the
claimed average (truncating division of the nanosecond sum by the count). -/
theorem calc_median_average_formulas (d : DataStore) (hne : d.allQueryTimes ≠ []) :
    List.Sorted (· ≤ ·) (d.allQueryTimes.insertionSort (· ≤ ·)) ∧
    (d.allQueryTimes.insertionSort (· ≤ ·)).Perm d.allQueryTimes ∧
    calcMedianAndAverage d = some
      ((if d.allQueryTimes.length % 2 = 0 then
          Int.tdiv
            ((d.allQueryTimes.insertionSort (· ≤ ·)).getD (d.allQueryTimes.length / 2) 0 +
              (d.allQueryTimes.insertionSort (· ≤ ·)).getD (d.allQueryTimes.length / 2 - 1) 0) 2
        else
          (d.allQueryTimes.insertionSort (· ≤ ·)).getD (d.allQueryTimes.length / 2) 0),
        Int.tdiv d.allQueryTimes.sum (d.allQueryTimes.length : Int)) :=
  ⟨List.sorted_insertionSort (· ≤ ·) d.allQueryTimes,
    List.perm_insertionSort (· ≤ ·) d.allQueryTimes, calc_nonempty_eq d hne⟩

theorem calc_median_average_formulas_witness :
    calcMedianAndAverage (collectorRun [⟨1⟩, ⟨2⟩, ⟨3⟩, ⟨4⟩]) = some
      ((if (collectorRun [⟨1⟩, ⟨2⟩, ⟨3⟩, ⟨4⟩]).allQueryTimes.length % 2 = 0 then
          Int.tdiv
            (((collectorRun [⟨1⟩, ⟨2⟩, ⟨3⟩, ⟨4⟩]).allQueryTimes.insertionSort (· ≤ ·)).getD
                ((collectorRun [⟨1⟩, ⟨2⟩, ⟨3⟩, ⟨4⟩]).allQueryTimes.length / 2) 0 +
              ((collectorRun [⟨1⟩, ⟨2⟩, ⟨3⟩, ⟨4⟩]).allQueryTimes.insertionSort (· ≤ ·)).getD
                ((collectorRun [⟨1⟩, ⟨2⟩, ⟨3⟩, ⟨4⟩]).allQueryTimes.length / 2 - 1) 0) 2
        else
          ((collectorRun [⟨1⟩, ⟨2⟩, ⟨3⟩, ⟨4⟩]).allQueryTimes.insertionSort (· ≤ ·)).getD
            ((collectorRun [⟨1⟩, ⟨2⟩, ⟨3⟩, ⟨4⟩]).allQueryTimes.length / 2) 0),
        Int.tdiv (collectorRun [⟨1⟩, ⟨2⟩, ⟨3⟩, ⟨4⟩]).allQueryTimes.sum
          ((collectorRun [⟨1⟩, ⟨2⟩, ⟨3⟩, ⟨4⟩]).allQueryTimes.length : Int)) :=
  (calc_median_average_formulas (collectorRun [⟨1⟩, ⟨2⟩, ⟨3⟩, ⟨4⟩]) (by decide)).2.2

/-- C7: for every non-empty sample sequence, the finalized statistics
satisfy `min ≤ median ≤ max` and `min ≤ average ≤ max` under the exact
integer nanosecond arithmetic of the collector. -/
theorem stats_bounded (samples : List WorkSample) (hne : samples ≠ []) :
    ∃ mn mx med avg,
      (collectorRun samples).minQueryTime = some mn ∧
      (collectorRun samples).maxQueryTime = some mx ∧
      calcMedianAndAverage (collectorRun samples) = some (med, avg) ∧
      mn ≤ med ∧ med ≤ mx ∧ mn ≤ avg ∧ avg ≤ mx := by
  obtain ⟨hcount, hsumI, hminn, hmaxn, hmin, hmax⟩ := collectorRun_inv samples
  have hall := collectorRun_allQueryTimes samples
  have hopsne : (collectorRun samples).allQueryTimes ≠ [] := by
    rw [hall]
    intro hx
    exact hne (List.map_eq_nil.mp hx)
  cases hminO : (collectorRun samples).minQueryTime with
  | none => exact absurd (hminn.mp hminO) hopsne
  | some mn =>
  cases hmaxO : (collectorRun samples).maxQueryTime with
  | none => exact absurd (hmaxn.mp hmaxO) hopsne
  | some mx =>
  obtain ⟨hmnmem, hmnle⟩ := hmin mn hminO
  obtain ⟨hmxmem, hmxge⟩ := hmax mx hmaxO
  have hcalc := calc_nonempty_eq (collectorRun samples) hopsne
  have hperm := List.perm_insertionSort (· ≤ ·) (collectorRun samples).allQueryTimes
  have hlen : ((collectorRun samples).allQueryTimes.insertionSort (· ≤ ·)).length =
      (collectorRun samples).allQueryTimes.length := hperm.length_eq
  have hpos : 0 < (collectorRun samples).allQueryTimes.length :=
    List.length_pos.mpr hopsne
  have hel : ∀ (k : Nat)
      (hk : k < ((collectorRun samples).allQueryTimes.insertionSort (· ≤ ·)).length),
      mn ≤ ((collectorRun samples).allQueryTimes.insertionSort (· ≤ ·)).get ⟨k, hk⟩ ∧
        ((collectorRun samples).allQueryTimes.insertionSort (· ≤ ·)).get ⟨k, hk⟩ ≤ mx := by
    intro k hk
    have hmem := hperm.mem_iff.mp
      (List.get_mem ((collectorRun samples).allQueryTimes.insertionSort (· ≤ ·)) k hk)
    exact ⟨hmnle _ hmem, hmxge _ hmem⟩
  have hk0 : (collectorRun samples).allQueryTimes.length / 2 <
      ((collectorRun samples).allQueryTimes.insertionSort (· ≤ ·)).length := by
    omega
  have hg0 : ((collectorRun samples).allQueryTimes.insertionSort (· ≤ ·)).getD
      ((collectorRun samples).allQueryTimes.length / 2) 0 =
      ((collectorRun samples).allQueryTimes.insertionSort (· ≤ ·)).get ⟨_, hk0⟩ := by
    rw [List.getD_eq_get?, List.get?_eq_get hk0]
    rfl
  have hk1 : (collectorRun samples).allQueryTimes.length / 2 - 1 <
      ((collectorRun samples).allQueryTimes.insertionSort (· ≤ ·)).length := by
    omega
  have hg1 : ((collectorRun samples).allQueryTimes.insertionSort (· ≤ ·)).getD
      ((collectorRun samples).allQueryTimes.length / 2 - 1) 0 =
      ((collectorRun samples).allQueryTimes.insertionSort (· ≤ ·)).get ⟨_, hk1⟩ := by
    rw [List.getD_eq_get?, List.get?_eq_get hk1]
    rfl
  have hlenZ : (0 : Int) < ((collectorRun samples).allQueryTimes.length : Int) := by
    omega
  have havg_lo : mn ≤ Int.tdiv (collectorRun samples).allQueryTimes.sum
      (((collectorRun samples).allQueryTimes.length : Int)) := by
    have hsmul := List.card_nsmul_le_sum (collectorRun samples).allQueryTimes mn hmnle
    rw [nsmul_eq_mul] at hsmul
    have hcancel : Int.tdiv ((((collectorRun samples).allQueryTimes.length : Int)) * mn)
        (((collectorRun samples).allQueryTimes.length : Int)) = mn :=
      Int.mul_tdiv_cancel_left mn (by omega)
    calc mn = Int.tdiv ((((collectorRun samples).allQueryTimes.length : Int)) * mn)
          (((collectorRun samples).allQueryTimes.length : Int)) := hcancel.symm
      _ ≤ Int.tdiv (collectorRun samples).allQueryTimes.sum
          (((collectorRun samples).allQueryTimes.length : Int)) :=
        tdiv_le_tdiv_right hsmul hlenZ
  have havg_hi : Int.tdiv (collectorRun samples).allQueryTimes.sum
      (((collectorRun samples).allQueryTimes.length : Int)) ≤ mx := by
    have hsmul := List.sum_le_card_nsmul (collectorRun samples).allQueryTimes mx hmxge
    rw [nsmul_eq_mul] at hsmul
    have hcancel : Int.tdiv ((((collectorRun samples).allQueryTimes.length : Int)) * mx)
        (((collectorRun samples).allQueryTimes.length : Int)) = mx :=
      Int.mul_tdiv_cancel_left mx (by omega)
    calc Int.tdiv (collectorRun samples).allQueryTimes.sum
          (((collectorRun samples).allQueryTimes.length : Int))
        ≤ Int.tdiv ((((collectorRun samples).allQueryTimes.length : Int)) * mx)
          (((collectorRun samples).allQueryTimes.length : Int)) :=
        tdiv_le_tdiv_right hsmul hlenZ
      _ = mx := hcancel
  refine ⟨mn, mx, _, _, rfl, rfl, hcalc, ?_, ?_, havg_lo, havg_hi⟩
  · by_cases hpar : (collectorRun samples).allQueryTimes.length % 2 = 0
    · rw [if_pos hpar, hg0, hg1]
      have ha := hel _ hk0
      have hb := hel _ hk1
      calc mn = Int.tdiv (mn + mn) 2 := (add_self_tdiv_two mn).symm
        _ ≤ _ := tdiv_le_tdiv_right (add_le_add ha.1 hb.1) (by decide)
    · rw [if_neg hpar, hg0]
      exact (hel _ hk0).1
  · by_cases hpar : (collectorRun samples).allQueryTimes.length % 2 = 0
    · rw [if_pos hpar, hg0, hg1]
      have ha := hel _ hk0
      have hb := hel _ hk1
      calc Int.tdiv _ 2 ≤ Int.tdiv (mx + mx) 2 :=
          tdiv_le_tdiv_right (add_le_add ha.2 hb.2) (by decide)
        _ = mx := add_self_tdiv_two mx
    · rw [if_neg hpar, hg0]
      exact (hel _ hk0).2

theorem stats_bounded_witness :
    ∃ mn mx med avg,
      (collectorRun [⟨5⟩, ⟨1⟩, ⟨3⟩]).minQueryTime = some mn ∧
      (collectorRun [⟨5⟩, ⟨1⟩, ⟨3⟩]).maxQueryTime = some mx ∧
      calcMedianAndAverage (collectorRun [⟨5⟩, ⟨1⟩, ⟨3⟩]) = some (med, avg) ∧
      mn ≤ med ∧ med ≤ mx ∧ mn ≤ avg ∧ avg ≤ mx :=
  stats_bounded [⟨5⟩, ⟨1⟩, ⟨3⟩] (by decide)

/-- C2 fails on the code.  With zero samples the dispatcher does spawn
zero workers and the count is zero, but finalization does not surface the
statistics as undefined: `calcMedianAndAverage` takes the even branch
(`0 % 2 = 0`) and evaluates `allQueryTimes[0]` and `allQueryTimes[-1]` on
the empty slice — both reads are out of range (modelled by
`goIndex ... = none`), and the division `sum / dataLen` would divide by
zero, so the whole finalization aborts (`none`) instead of reporting. -/
theorem empty_run_finalization_panics :
    (collectorRun []).numQueries = 0 ∧
    (dispatchRun (NewController 0) []).workers.length = 0 ∧
    (dispatchRun (NewController 4) []).workers.length = 0 ∧
    ((collectorRun []).allQueryTimes.insertionSort (· ≤ ·)).length % 2 = 0 ∧
    goIndex ((collectorRun []).allQueryTimes.insertionSort (· ≤ ·)) 0 = none ∧
    goIndex ((collectorRun []).allQueryTimes.insertionSort (· ≤ ·)) (-1) = none ∧
    calcMedianAndAverage (collectorRun []) = none := by
  decide
